import Mathlib

/-!
Verification development for the Tekton results watcher/record subsystem.

The development shallowly embeds:
* the hierarchical-name codec (ParseName / FormatName) and the wire/storage
  record converter (ToStorage / ToAPI), modelled from the specification since
  only their tests are in the repository snapshot;
* the TaskRun reconciler (`Reconciler.Reconcile`) from the watcher, embedded
  as a pure function over a `World` describing the outcomes of the external
  collaborator calls (source-object store, converter, remote results service),
  returning the reconciliation outcome together with the trace of remote
  results-service calls and metadata patches issued.
-/

namespace TektonResults

/-! ### Splitting a string at `/` (models Go `strings.Split(s, "/")`) -/

/-- Split a character list at every occurrence of the separator `/`.
Mirrors Go `strings.Split` with separator `"/"`: the empty list yields
one empty part, and every separator opens a new part. -/
def splitSlashAux : List Char → List (List Char)
  | [] => [[]]
  | c :: rest =>
    if c = '/' then [] :: splitSlashAux rest
    else
      match splitSlashAux rest with
      | [] => [[c]]
      | h :: t => (c :: h) :: t

/-- String-level wrapper for `splitSlashAux`. -/
def splitSlash (s : String) : List String :=
  (splitSlashAux s.data).map String.mk

theorem splitSlashAux_ne_nil (l : List Char) : splitSlashAux l ≠ [] := by
  cases l with
  | nil => simp [splitSlashAux]
  | cons c rest =>
    simp only [splitSlashAux]
    split
    · simp
    · split
      · simp
      · simp

/-- Joining the parts back with `/` (left inverse of `splitSlashAux`). -/
def joinSlash : List (List Char) → List Char
  | [] => []
  | [p] => p
  | p :: ps => p ++ '/' :: joinSlash ps

theorem joinSlash_cons_cons (p : List Char) (q : List Char) (ps : List (List Char)) :
    joinSlash (p :: q :: ps) = p ++ '/' :: joinSlash (q :: ps) := by
  rfl

theorem joinSlash_cons_head (c : Char) (h : List Char) (t : List (List Char)) :
    joinSlash ((c :: h) :: t) = c :: joinSlash (h :: t) := by
  cases t with
  | nil => rfl
  | cons q qs => simp [joinSlash_cons_cons]

theorem joinSlash_splitSlashAux (l : List Char) : joinSlash (splitSlashAux l) = l := by
  induction l with
  | nil => rfl
  | cons c rest ih =>
    simp only [splitSlashAux]
    split
    · rename_i hc
      subst hc
      obtain ⟨h, t, ht⟩ := List.exists_cons_of_ne_nil (splitSlashAux_ne_nil rest)
      rw [ht] at ih ⊢
      simp [joinSlash_cons_cons, ih]
    · obtain ⟨h, t, ht⟩ := List.exists_cons_of_ne_nil (splitSlashAux_ne_nil rest)
      rw [ht] at ih ⊢
      simp only [joinSlash_cons_head, ih]

theorem not_slash_mem_splitSlashAux (l : List Char) :
    ∀ p ∈ splitSlashAux l, '/' ∉ p := by
  induction l with
  | nil =>
    intro p hp
    simp [splitSlashAux] at hp
    simp [hp]
  | cons c rest ih =>
    intro p hp
    simp only [splitSlashAux] at hp
    by_cases hc : c = '/'
    · rw [if_pos hc] at hp
      rcases List.mem_cons.mp hp with h | h
      · simp [h]
      · exact ih p h
    · rw [if_neg hc] at hp
      obtain ⟨h, t, ht⟩ := List.exists_cons_of_ne_nil (splitSlashAux_ne_nil rest)
      rw [ht] at hp
      rcases List.mem_cons.mp hp with h1 | h1
      · subst h1
        intro hmem
        rcases List.mem_cons.mp hmem with h2 | h2
        · exact hc h2.symm
        · exact ih h (ht ▸ List.mem_cons_self h t) h2
      · exact ih p (ht ▸ List.mem_cons_of_mem h h1)

theorem splitSlashAux_append (a : List Char) (ha : '/' ∉ a) (r : List Char) :
    splitSlashAux (a ++ '/' :: r) = a :: splitSlashAux r := by
  induction a with
  | nil => simp [splitSlashAux]
  | cons c a' ih =>
    have hc : c ≠ '/' := fun h => ha (h ▸ List.mem_cons_self c a')
    have ha' : '/' ∉ a' := fun h => ha (List.mem_cons_of_mem c h)
    simp only [List.cons_append, splitSlashAux, if_neg hc, List.append_eq, ih ha']

theorem splitSlashAux_no_slash (a : List Char) (ha : '/' ∉ a) :
    splitSlashAux a = [a] := by
  induction a with
  | nil => rfl
  | cons c a' ih =>
    have hc : c ≠ '/' := fun h => ha (h ▸ List.mem_cons_self c a')
    have ha' : '/' ∉ a' := fun h => ha (List.mem_cons_of_mem c h)
    simp only [splitSlashAux, if_neg hc, ih ha']

/-! ### NameCodec (`pkg/api/server/v1alpha2/record`) -/

/-- A string containing no `/` separator character. -/
def slashFree (s : String) : Prop := '/' ∉ s.data

instance (s : String) : Decidable (slashFree s) := by
  unfold slashFree
  infer_instance


/-- Core of `ParseName`: validation of the list of slash-separated parts. -/
def parseParts : List String → Option (String × String × String)
  | [parent, c1, result, c2, name] =>
    if c1 = "results" ∧ c2 = "records" ∧ parent ≠ "" ∧ result ≠ "" ∧ name ≠ "" then
      some (parent, result, name)
    else
      none
  | _ => none

/-- Modelled from the spec: `ParseName` of the record package (the package
source is not in the snapshot, only its tests).  Grammar: exactly
`parent/results/result/records/record`, five slash-delimited parts, connector
literals `results` and `records` in positions 2 and 4, each value segment
non-empty (separator-freedom is inherent to splitting); any deviation is a
parse error (`none`). -/
def ParseName (raw : String) : Option (String × String × String) :=
  parseParts (splitSlash raw)

/-- Modelled from the spec: `FormatName` produces the two-level partial form
`parent/records/record`, a pure string composition with no validation. -/
def FormatName (parent name : String) : String :=
  parent ++ "/records/" ++ name

/-- The full hierarchical name `parent/results/result/records/record`,
as composed by the record converter. -/
def formatFullName (parent result name : String) : String :=
  parent ++ "/results/" ++ result ++ "/records/" ++ name

theorem data_formatFullName (p r n : String) :
    (formatFullName p r n).data
      = p.data ++ '/' :: ("results".data ++ '/' :: (r.data ++ '/' :: ("records".data ++ '/' :: n.data))) := by
  simp [formatFullName, String.data_append]

theorem splitSlashAux_five (a b c d e : List Char)
    (ha : '/' ∉ a) (hb : '/' ∉ b) (hc : '/' ∉ c) (hd : '/' ∉ d) (he : '/' ∉ e) :
    splitSlashAux (a ++ '/' :: (b ++ '/' :: (c ++ '/' :: (d ++ '/' :: e)))) = [a, b, c, d, e] := by
  rw [splitSlashAux_append a ha, splitSlashAux_append b hb, splitSlashAux_append c hc,
    splitSlashAux_append d hd, splitSlashAux_no_slash e he]

theorem string_mk_data (s : String) : String.mk s.data = s := rfl

theorem string_ne_empty_iff (s : String) : s ≠ "" ↔ s.data ≠ [] := by
  constructor
  · intro h hdata
    exact h (String.ext (by simpa using hdata))
  · intro h hs
    apply h
    rw [hs]

/-- Characterization of `ParseName`: it succeeds with `(p, r, n)` exactly when
the input is the five-part concatenation with connectors `results`/`records`
and the three value segments non-empty and separator-free. -/
theorem parseName_eq_some_iff (s p r n : String) :
    ParseName s = some (p, r, n) ↔
      (s = formatFullName p r n ∧ p ≠ "" ∧ r ≠ "" ∧ n ≠ "" ∧
       slashFree p ∧ slashFree r ∧ slashFree n) := by
  constructor
  · intro h
    unfold ParseName at h
    obtain ⟨l, hl⟩ : ∃ l, splitSlash s = l := ⟨_, rfl⟩
    rw [hl] at h
    rcases l with _ | ⟨q1, _ | ⟨c1, _ | ⟨q2, _ | ⟨c2, _ | ⟨q3, _ | ⟨q4, qs⟩⟩⟩⟩⟩⟩
    · exact absurd h (by simp [parseParts])
    · exact absurd h (by simp [parseParts])
    · exact absurd h (by simp [parseParts])
    · exact absurd h (by simp [parseParts])
    · exact absurd h (by simp [parseParts])
    case cons.cons.cons.cons.cons.nil =>
      have heq : parseParts [q1, c1, q2, c2, q3]
          = if c1 = "results" ∧ c2 = "records" ∧ q1 ≠ "" ∧ q2 ≠ "" ∧ q3 ≠ "" then
              some (q1, q2, q3)
            else none := rfl
      rw [heq] at h
      split at h
      · rename_i hcond
        obtain ⟨hc1, hc2, hq1, hq2, hq3⟩ := hcond
        simp only [Option.some.injEq, Prod.mk.injEq] at h
        obtain ⟨rfl, rfl, rfl⟩ := h
        subst hc1
        subst hc2
        have hsplit : splitSlashAux s.data
            = [q1.data, "results".data, q2.data, "records".data, q3.data] := by
          have hmd := congrArg (List.map String.data) hl
          simp only [splitSlash, List.map_map, List.map_cons, List.map_nil] at hmd
          have hid : String.data ∘ String.mk = id := funext fun l => rfl
          rw [hid, List.map_id] at hmd
          exact hmd
        have hjoin : joinSlash [q1.data, "results".data, q2.data, "records".data, q3.data]
            = q1.data ++ '/' :: ("results".data ++ '/' :: (q2.data ++ '/' :: ("records".data ++ '/' :: q3.data))) := rfl
        have hdata : s.data
            = q1.data ++ '/' :: ("results".data ++ '/' :: (q2.data ++ '/' :: ("records".data ++ '/' :: q3.data))) := by
          have hj := joinSlash_splitSlashAux s.data
          rw [hsplit, hjoin] at hj
          exact hj.symm
        have hfree : ∀ q ∈ splitSlashAux s.data, '/' ∉ q := not_slash_mem_splitSlashAux s.data
        rw [hsplit] at hfree
        refine ⟨?_, hq1, hq2, hq3, ?_, ?_, ?_⟩
        · apply String.ext
          rw [data_formatFullName]
          exact hdata
        · exact hfree q1.data (by simp)
        · exact hfree q2.data (by simp)
        · exact hfree q3.data (by simp)
      · exact absurd h (by simp)
    case cons.cons.cons.cons.cons.cons =>
      exact absurd h (by simp [parseParts])
  · rintro ⟨rfl, hp, hr, hn, fp, fr, fn⟩
    have hres : ('/' : Char) ∉ "results".data := by decide
    have hrec : ('/' : Char) ∉ "records".data := by decide
    have hsplit : splitSlash (formatFullName p r n) = [p, "results", r, "records", n] := by
      unfold splitSlash
      rw [data_formatFullName]
      rw [splitSlashAux_five p.data "results".data r.data "records".data n.data fp hres fr hrec fn]
      simp only [List.map_cons, List.map_nil, string_mk_data]
    unfold ParseName
    rw [hsplit]
    show (if ("results" : String) = "results" ∧ ("records" : String) = "records" ∧ p ≠ "" ∧ r ≠ "" ∧ n ≠ "" then
        some (p, r, n) else none) = some (p, r, n)
    rw [if_pos ⟨rfl, rfl, hp, hr, hn⟩]

/-! ### RecordConverter (`pkg/api/server/v1alpha2/record`) -/

/-- The typed payload envelope of a wire record (protobuf `Any`):
a type URL naming the payload kind, plus the payload's own serialized
bytes, kept opaque. -/
structure AnyMsg where
  typeUrl : String
  value : List Nat
  deriving DecidableEq, Repr

/-- Modelled from the spec: the byte serialization (`proto.Marshal`) of a
typed envelope, an external protobuf concern.  It is modelled as a concrete
injective length-prefixed encoding so that the storage form really holds
plain bytes and unmarshalling really recomputes the envelope. -/
def marshalAny (a : AnyMsg) : List Nat :=
  a.typeUrl.length :: (a.typeUrl.data.map Char.toNat ++ a.value)

/-- Modelled from the spec: decoding stored bytes back into a typed envelope
(`proto.Unmarshal`); fails on bytes that do not decode. -/
def unmarshalAny (b : List Nat) : Option AnyMsg :=
  match b with
  | [] => none
  | k :: rest =>
    if k ≤ rest.length then
      some ⟨String.mk ((rest.take k).map Char.ofNat), rest.drop k⟩
    else
      none

theorem unmarshalAny_marshalAny (a : AnyMsg) : unmarshalAny (marshalAny a) = some a := by
  obtain ⟨⟨lc⟩, v⟩ := a
  have hlen : (String.mk lc).length = (lc.map Char.toNat).length := by
    rw [List.length_map]
    rfl
  have hle : (String.mk lc).length ≤ (lc.map Char.toNat ++ v).length := by
    rw [hlen]
    simp
  have htake : ((lc.map Char.toNat ++ v).take (String.mk lc).length).map Char.ofNat = lc := by
    rw [hlen, List.take_left, List.map_map]
    have hco : (Char.ofNat ∘ Char.toNat) = id := funext fun c => Char.ofNat_toNat c
    rw [hco, List.map_id]
  have hdrop : (lc.map Char.toNat ++ v).drop (String.mk lc).length = v := by
    rw [hlen, List.drop_left]
  show unmarshalAny ((String.mk lc).length :: (lc.map Char.toNat ++ v)) = _
  simp only [unmarshalAny]
  rw [if_pos hle, htake, hdrop]

/-- Wire-level record (`pb.Record`): hierarchical name, id, optional typed
payload envelope, and a concurrency token (`Etag`). -/
structure PbRecord where
  name : String
  id : String
  data : Option AnyMsg
  etag : String
  deriving DecidableEq, Repr

/-- Storage-level record (`db.Record`): fully decomposed addressing fields
plus the payload as plain bytes.  It has no concurrency-token field. -/
structure DbRecord where
  parent : String
  resultID : String
  resultName : String
  name : String
  id : String
  data : Option (List Nat)
  deriving DecidableEq, Repr

/-- Modelled from the spec: `ToStorage(parent, resultName, resultID, name, r)`
populates the storage record from the given addressing arguments and the wire
record's id, marshalling the typed envelope into payload bytes (absent payload
stays absent); the wire record's concurrency token is accepted but not
persisted. -/
def ToStorage (parent resultName resultID name : String) (r : PbRecord) :
    Option DbRecord :=
  some { parent := parent, resultID := resultID, resultName := resultName,
         name := name, id := r.id, data := r.data.map marshalAny }

/-- Modelled from the spec: `ToAPI` composes the full hierarchical name from
parent/resultName/recordName, copies the id, and reconstructs the typed
envelope from the stored bytes (error if they cannot be decoded; absent
payload stays absent). -/
def ToAPI (r : DbRecord) : Option PbRecord :=
  match r.data with
  | none => some { name := formatFullName r.parent r.resultName r.name,
                   id := r.id, data := none, etag := "" }
  | some b =>
    match unmarshalAny b with
    | none => none
    | some a => some { name := formatFullName r.parent r.resultName r.name,
                       id := r.id, data := some a, etag := "" }

/-! ### ResultSyncReconciler (`pkg/watcher/reconciler/taskrun`) -/

/-- Metadata of a converted TaskRun proto: identity plus the annotation map
(as an association list, first match wins on lookup). -/
structure ObjectMeta where
  ns : String
  name : String
  annots : List (String × String)
  deriving DecidableEq, Repr

/-- The converted TaskRun payload (`pb.TaskRun` proto): its metadata plus the
rest of the message, kept opaque. -/
structure TaskRunProto where
  metadata : ObjectMeta
  rest : String
  deriving DecidableEq, Repr

/-- The watched source object (the cluster TaskRun); only its identity is
consulted by the reconciler. -/
structure TaskRun where
  ns : String
  name : String
  deriving DecidableEq, Repr

/-- The back-reference annotation key `annotation.ResultID` (the annotation
package is not in the snapshot; the key is an opaque constant). -/
def resultIDKey : String := "results.tekton.dev/result"

/-- One Execution slot of a Result: the proto oneof, either a TaskRun payload
or some other/unset variant (for which `GetTaskRun` yields nothing). -/
inductive Execution where
  | taskRun (tr : TaskRunProto)
  | unset
  deriving DecidableEq, Repr

/-- Accessor `execution.GetTaskRun()`: the TaskRun payload if that is the set variant. -/
def Execution.getTaskRun : Execution → Option TaskRunProto
  | .taskRun tr => some tr
  | .unset => none

/-- A Result aggregate (`pb.Result`): name plus the ordered Executions. -/
structure Result where
  name : String
  executions : List Execution
  deriving DecidableEq, Repr

/-- A remote results-service call issued by the reconciler, with its request. -/
inductive RemoteCall where
  | getResult (name : String)
  | createResult (result : Result)
  | updateResult (name : String) (result : Result)
  deriving DecidableEq, Repr

/-- A minimal metadata patch: one annotation key/value added. -/
structure JSONPatch where
  key : String
  value : String
  deriving DecidableEq, Repr

/-- Modelled from the spec: `annotation.AddResultID` (not in the snapshot)
computes the minimal metadata patch adding the back-reference identifier
equal to the given Result name. -/
def addResultID (name : String) : JSONPatch :=
  { key := resultIDKey, value := name }

/-- The error kinds a reconciliation can return. -/
inductive ReconcileError where
  | fetchErr
  | convertErr
  | createErr
  | patchComputeErr
  | patchApplyErr
  | updateErr
  deriving DecidableEq, Repr

/-- How one `Reconcile` invocation ends: returning `nil`, returning a non-nil
error, or aborting the whole process through a fatal log call. -/
inductive Outcome where
  | ok
  | err (e : ReconcileError)
  | fatal
  deriving DecidableEq, Repr

/-- Outcome of fetching the source TaskRun from the cluster store. -/
inductive FetchOutcome where
  | notFound
  | failure
  | ok (tr : TaskRun)
  deriving DecidableEq, Repr

/-- Behaviour of the external collaborators during one `Reconcile` pass:
each field is the outcome the corresponding external call would produce.
`none`/`failure`/`false` model that call returning an error. -/
structure World where
  fetchTaskRun : FetchOutcome
  convertProto : Option TaskRunProto
  getResult : Option Result
  updateResultOk : Bool
  createResult : Option Result
  addResultIDOk : Bool
  patchOk : Bool
  deriving DecidableEq, Repr

/-- What one `Reconcile` invocation did: its outcome, the remote
results-service calls it issued (in order), and the metadata patches it
applied to source objects (namespace, name, patch). -/
structure ReconcileResult where
  outcome : Outcome
  remoteCalls : List RemoteCall
  patches : List (String × String × JSONPatch)
  deriving DecidableEq, Repr

/-- Embedding of `cache.SplitMetaNamespaceKey` (k8s client-go): `name` or `ns/name`;
any key with more than one `/` is an error (`none`). -/
def splitMetaNamespaceKey (key : String) : Option (String × String) :=
  match splitSlash key with
  | [name] => some ("", name)
  | [ns, name] => some (ns, name)
  | _ => none

/-- Does this Execution hold a TaskRun payload whose metadata matches the
source object's (namespace, name)?  Mirrors the loop condition
`remoteTr != nil && remoteTr.Metadata.Namespace == tr.Namespace &&
remoteTr.Metadata.Name == tr.Name`. -/
def matchesTaskRun (tr : TaskRun) (e : Execution) : Bool :=
  match e.getTaskRun with
  | some remoteTr => remoteTr.metadata.ns == tr.ns && remoteTr.metadata.name == tr.name
  | none => false

/-- The UPDATE branch's treatment of the fetched Result's Executions: every
matching slot is overwritten in place with the new payload; if no slot
matched, the new payload is appended at the end. -/
def updateExecutions (tr : TaskRun) (trProto : TaskRunProto)
    (execs : List Execution) : List Execution :=
  if execs.any (matchesTaskRun tr) then
    execs.map fun e => if matchesTaskRun tr e then Execution.taskRun trProto else e
  else
    execs ++ [Execution.taskRun trProto]

/-- Embedding of `Reconciler.Reconcile(ctx, key)`:
1. split the key (an invalid key is logged and `nil` is returned);
2. fetch the TaskRun (NotFound is logged and `nil` is returned; any other
   error is returned);
3. convert it to a proto (an error is returned);
4. if the proto's annotations carry `annotation.ResultID`: `GetResult` (a
   failure is logged via `logger.Fatalf`, aborting the process), rewrite the
   Executions, and `UpdateResult` with the whole Result (an error is
   returned);
5. otherwise: `CreateResult` with a Result holding exactly one Execution for
   this payload (an error is returned), compute the back-reference patch (an
   error is returned), and apply it to the TaskRun (an error is returned). -/
def reconcile (w : World) (key : String) : ReconcileResult :=
  match splitMetaNamespaceKey key with
  | none => { outcome := .ok, remoteCalls := [], patches := [] }
  | some _ =>
    match w.fetchTaskRun with
    | .notFound => { outcome := .ok, remoteCalls := [], patches := [] }
    | .failure => { outcome := .err .fetchErr, remoteCalls := [], patches := [] }
    | .ok tr =>
      match w.convertProto with
      | none => { outcome := .err .convertErr, remoteCalls := [], patches := [] }
      | some trProto =>
        match trProto.metadata.annots.lookup resultIDKey with
        | some resultID =>
          match w.getResult with
          | none =>
            { outcome := .fatal, remoteCalls := [.getResult resultID], patches := [] }
          | some result =>
            let updated : Result :=
              { result with executions := updateExecutions tr trProto result.executions }
            { outcome := if w.updateResultOk then .ok else .err .updateErr,
              remoteCalls := [.getResult resultID, .updateResult resultID updated],
              patches := [] }
        | none =>
          let req : Result := { name := "", executions := [Execution.taskRun trProto] }
          match w.createResult with
          | none => { outcome := .err .createErr, remoteCalls := [.createResult req], patches := [] }
          | some created =>
            if w.addResultIDOk then
              { outcome := if w.patchOk then .ok else .err .patchApplyErr,
                remoteCalls := [.createResult req],
                patches := [(tr.ns, tr.name, addResultID created.name)] }
            else
              { outcome := .err .patchComputeErr,
                remoteCalls := [.createResult req], patches := [] }

/-- A fully clean pass: the fetch, conversion, and every remote call and
patch on the taken branch succeeded. -/
def cleanRun (w : World) : Prop :=
  match w.fetchTaskRun with
  | .ok _ =>
    match w.convertProto with
    | some trProto =>
      match trProto.metadata.annots.lookup resultIDKey with
      | some _ => w.getResult.isSome ∧ w.updateResultOk = true
      | none => w.createResult.isSome ∧ w.addResultIDOk = true ∧ w.patchOk = true
    | none => False
  | _ => False

/-! ### Reduction lemmas for the reconciler branches -/

theorem reconcile_update_branch (w : World) (key ns0 n0 : String) (tr : TaskRun)
    (trProto : TaskRunProto) (rid : String) (result : Result)
    (hk : splitMetaNamespaceKey key = some (ns0, n0))
    (hf : w.fetchTaskRun = .ok tr)
    (hc : w.convertProto = some trProto)
    (ha : trProto.metadata.annots.lookup resultIDKey = some rid)
    (hg : w.getResult = some result) :
    reconcile w key =
      { outcome := if w.updateResultOk then .ok else .err .updateErr,
        remoteCalls := [.getResult rid, .updateResult rid
          { result with executions := updateExecutions tr trProto result.executions }],
        patches := [] } := by
  simp only [reconcile, hk, hf, hc, ha, hg]

theorem reconcile_create_branch (w : World) (key ns0 n0 : String) (tr : TaskRun)
    (trProto : TaskRunProto) (created : Result)
    (hk : splitMetaNamespaceKey key = some (ns0, n0))
    (hf : w.fetchTaskRun = .ok tr)
    (hc : w.convertProto = some trProto)
    (ha : trProto.metadata.annots.lookup resultIDKey = none)
    (hcr : w.createResult = some created)
    (hok : w.addResultIDOk = true) :
    reconcile w key =
      { outcome := if w.patchOk then .ok else .err .patchApplyErr,
        remoteCalls := [.createResult { name := "", executions := [.taskRun trProto] }],
        patches := [(tr.ns, tr.name, addResultID created.name)] } := by
  simp only [reconcile, hk, hf, hc, ha, hcr, hok, if_true]

theorem updateExecutions_of_any (tr : TaskRun) (trProto : TaskRunProto)
    (execs : List Execution) (hex : execs.any (matchesTaskRun tr) = true) :
    updateExecutions tr trProto execs
      = execs.map fun e => if matchesTaskRun tr e then Execution.taskRun trProto else e := by
  unfold updateExecutions
  rw [hex]
  rfl

theorem updateExecutions_of_none (tr : TaskRun) (trProto : TaskRunProto)
    (execs : List Execution) (hnone : ∀ x ∈ execs, matchesTaskRun tr x = false) :
    updateExecutions tr trProto execs = execs ++ [Execution.taskRun trProto] := by
  unfold updateExecutions
  have hany : execs.any (matchesTaskRun tr) = false := by
    rw [List.any_eq_false]
    intro x hx
    simp [hnone x hx]
  rw [hany]
  rfl

theorem updateExecutions_replace (tr : TaskRun) (trProto : TaskRunProto)
    (pre : List Execution) (e : Execution) (post : List Execution)
    (hm : matchesTaskRun tr e = true)
    (hpre : ∀ x ∈ pre, matchesTaskRun tr x = false)
    (hpost : ∀ x ∈ post, matchesTaskRun tr x = false) :
    updateExecutions tr trProto (pre ++ e :: post)
      = pre ++ Execution.taskRun trProto :: post := by
  have hex : (pre ++ e :: post).any (matchesTaskRun tr) = true := by
    simp [List.any_append, List.any_cons, hm]
  rw [updateExecutions_of_any tr trProto _ hex, List.map_append, List.map_cons]
  have h1 : pre.map (fun x => if matchesTaskRun tr x then Execution.taskRun trProto else x) = pre := by
    rw [List.map_congr_left (g := id) fun x hx => by simp [hpre x hx], List.map_id]
  have h2 : post.map (fun x => if matchesTaskRun tr x then Execution.taskRun trProto else x) = post := by
    rw [List.map_congr_left (g := id) fun x hx => by simp [hpost x hx], List.map_id]
  rw [h1, h2, if_pos hm]

/-! ### Concrete scenario data -/

/-- Sample source object. -/
def tr0 : TaskRun := { ns := "default", name := "tr1" }

/-- Converted payload without a back-reference identifier. -/
def protoNoRef : TaskRunProto :=
  { metadata := { ns := "default", name := "tr1", annots := [] }, rest := "v1" }

/-- Converted payload carrying the back-reference identifier. -/
def protoWithRef : TaskRunProto :=
  { metadata := { ns := "default", name := "tr1", annots := [(resultIDKey, "results/res1")] },
    rest := "v2" }

/-- An Execution whose TaskRun payload matches `tr0`. -/
def matchingExec : Execution :=
  .taskRun { metadata := { ns := "default", name := "tr1", annots := [] }, rest := "old" }

/-- A second matching Execution with different payload content. -/
def matchingExec2 : Execution :=
  .taskRun { metadata := { ns := "default", name := "tr1", annots := [] }, rest := "older" }

/-- An Execution whose TaskRun payload belongs to a different source object. -/
def otherExec : Execution :=
  .taskRun { metadata := { ns := "default", name := "other", annots := [] }, rest := "x" }

/-- World where the remote `GetResult` call fails during UPDATE. -/
def wFatal : World :=
  { fetchTaskRun := .ok tr0, convertProto := some protoWithRef, getResult := none,
    updateResultOk := true, createResult := none, addResultIDOk := true, patchOk := true }

/-- World where every external collaborator call fails. -/
def wAllFail : World :=
  { fetchTaskRun := .failure, convertProto := none, getResult := none,
    updateResultOk := false, createResult := none, addResultIDOk := false, patchOk := false }

/-- World for the CREATE branch, with the final patch application failing. -/
def wCreate : World :=
  { fetchTaskRun := .ok tr0, convertProto := some protoNoRef, getResult := none,
    updateResultOk := true, createResult := some { name := "results/new1", executions := [] },
    addResultIDOk := true, patchOk := false }

/-- Fetched Result with exactly one matching Execution. -/
def resReplace : Result := { name := "results/res1", executions := [otherExec, matchingExec] }

/-- World for the replace-in-place scenario. -/
def wReplace : World :=
  { fetchTaskRun := .ok tr0, convertProto := some protoWithRef, getResult := some resReplace,
    updateResultOk := true, createResult := none, addResultIDOk := true, patchOk := true }

/-- Fetched Result with no matching Execution. -/
def resAppend : Result := { name := "results/res1", executions := [otherExec, .unset] }

/-- World for the accretion scenario. -/
def wAppend : World :=
  { fetchTaskRun := .ok tr0, convertProto := some protoWithRef, getResult := some resAppend,
    updateResultOk := true, createResult := none, addResultIDOk := true, patchOk := true }

/-- Fetched Result with two matching Executions around a non-TaskRun slot. -/
def resMulti : Result :=
  { name := "results/res1", executions := [matchingExec, .unset, matchingExec2] }

/-- World for the rewrite-all-matches scenario. -/
def wMulti : World :=
  { fetchTaskRun := .ok tr0, convertProto := some protoWithRef, getResult := some resMulti,
    updateResultOk := true, createResult := none, addResultIDOk := true, patchOk := true }

/-- World where the source object is already gone. -/
def wTombstone : World :=
  { fetchTaskRun := .notFound, convertProto := none, getResult := none,
    updateResultOk := false, createResult := none, addResultIDOk := false, patchOk := false }

/-- Sample wire payload envelope. -/
def anyFull : AnyMsg := { typeUrl := "tekton.TaskRun", value := [1, 2, 3] }

/-- Sample wire record with payload and a concurrency token. -/
def rFull : PbRecord :=
  { name := "foo/results/bar/records/baz", id := "a", data := some anyFull, etag := "tacocat" }

/-! ### Claim theorems -/

/-- C1: in the UPDATE branch (back-reference identifier present on the
converted payload), a failing remote `GetResult` call is **not** surfaced to
the caller as a returned reconciliation error: the code logs it with
`logger.Fatalf`, which aborts the whole process without returning, unlike
every other remote-call, fetch, or patch-apply failure in `Reconcile`.
Evaluating the embedding at such an input yields the `fatal` outcome. -/
theorem getResult_failure_aborts_process :
    reconcile wFatal "default/tr1"
      = { outcome := Outcome.fatal,
          remoteCalls := [RemoteCall.getResult "results/res1"],
          patches := [] } := by
  decide

/-- C2 counterexample: a malformed key is silently swallowed.  On the key
`a/b/c` (which `SplitMetaNamespaceKey` rejects), `Reconcile` logs and returns
`nil`, contradicting the claim that a malformed key results in a non-nil
returned error. -/
theorem malformed_key_returns_nil :
    (reconcile wAllFail "a/b/c").outcome = Outcome.ok ∧
      splitMetaNamespaceKey "a/b/c" = none := by
  decide

/-- C2 (amended): `Reconcile` returns a nil error exactly when either the key
is malformed, or the SourceObject was not found, or the whole taken branch
succeeded; equivalently, no failure is silently swallowed except a malformed
key and "SourceObject not found" — with the further exception that a Result
lookup failure during UPDATE aborts the process fatally instead of returning
an error. -/
theorem reconcile_ok_iff (w : World) (key : String) :
    (reconcile w key).outcome = Outcome.ok ↔
      (splitMetaNamespaceKey key = none ∨ w.fetchTaskRun = FetchOutcome.notFound ∨ cleanRun w) := by
  cases hsk : splitMetaNamespaceKey key with
  | none => simp [reconcile, cleanRun, hsk]
  | some p =>
    cases hft : w.fetchTaskRun with
    | notFound => simp [reconcile, cleanRun, hsk, hft]
    | failure => simp [reconcile, cleanRun, hsk, hft]
    | ok tr =>
      cases hcp : w.convertProto with
      | none => simp [reconcile, cleanRun, hsk, hft, hcp]
      | some trProto =>
        cases hlk : trProto.metadata.annots.lookup resultIDKey with
        | some rid =>
          cases hgr : w.getResult with
          | none => simp [reconcile, cleanRun, hsk, hft, hcp, hlk, hgr]
          | some result =>
            cases hur : w.updateResultOk <;>
              simp [reconcile, cleanRun, hsk, hft, hcp, hlk, hgr, hur]
        | none =>
          cases hcr : w.createResult with
          | none => simp [reconcile, cleanRun, hsk, hft, hcp, hlk, hcr]
          | some created =>
            cases har : w.addResultIDOk <;> cases hpk : w.patchOk <;>
              simp [reconcile, cleanRun, hsk, hft, hcp, hlk, hcr, har, hpk]

/-- C3: for every wire record whose Name decomposes to
(parent, resultName, recordName), `ToAPI (ToStorage ...)` reproduces its Name,
Id, and payload exactly; the concurrency token on the input is accepted but
not persisted (the storage form has no such field and the mapping ignores
it); an absent payload stays absent through both forms, with no error. -/
theorem toAPI_toStorage_roundtrip (parent resultName resultID recordName : String)
    (r : PbRecord)
    (h : ParseName r.name = some (parent, resultName, recordName)) :
    ToStorage parent resultName resultID recordName r
        = some { parent := parent, resultID := resultID, resultName := resultName,
                 name := recordName, id := r.id, data := r.data.map marshalAny } ∧
    (∀ e : String, ToStorage parent resultName resultID recordName { r with etag := e }
        = ToStorage parent resultName resultID recordName r) ∧
    ToAPI { parent := parent, resultID := resultID, resultName := resultName,
            name := recordName, id := r.id, data := r.data.map marshalAny }
        = some { name := r.name, id := r.id, data := r.data, etag := "" } ∧
    (r.data = none → r.data.map marshalAny = none) := by
  have hname : r.name = formatFullName parent resultName recordName :=
    ((parseName_eq_some_iff r.name parent resultName recordName).mp h).1
  refine ⟨rfl, fun e => rfl, ?_, fun hd => by rw [hd]; rfl⟩
  cases hd : r.data with
  | none => simp [ToAPI, hname]
  | some a => simp [ToAPI, hname, unmarshalAny_marshalAny a]

/-- C3 witness: the round trip at a concrete record carrying a payload and a
concurrency token. -/
theorem toAPI_toStorage_roundtrip_witness :
    ToStorage "foo" "bar" "1" "baz" rFull
        = some { parent := "foo", resultID := "1", resultName := "bar",
                 name := "baz", id := "a", data := some (marshalAny anyFull) } ∧
    (∀ e : String, ToStorage "foo" "bar" "1" "baz" { rFull with etag := e }
        = ToStorage "foo" "bar" "1" "baz" rFull) ∧
    ToAPI { parent := "foo", resultID := "1", resultName := "bar",
            name := "baz", id := "a", data := some (marshalAny anyFull) }
        = some { name := "foo/results/bar/records/baz", id := "a",
                 data := some anyFull, etag := "" } ∧
    (rFull.data = none → rFull.data.map marshalAny = none) :=
  toAPI_toStorage_roundtrip "foo" "bar" "1" "baz" rFull (by decide)

/-- C4: `ParseName` succeeds exactly on five slash-delimited parts with
connector literals `results` and `records` in positions 2 and 4 and all three
value segments non-empty and separator-free; every input in the rejection
list fails, and `results/results/records/records/records` parses to
("results", "records", "records") because value segments may equal the
connector literals. -/
theorem parseName_grammar :
    (∀ s p r n : String,
      ParseName s = some (p, r, n) ↔
        (s = p ++ "/results/" ++ r ++ "/records/" ++ n ∧
         p ≠ "" ∧ r ≠ "" ∧ n ≠ "" ∧ slashFree p ∧ slashFree r ∧ slashFree n)) ∧
    ParseName "a/results/b/records/" = none ∧
    ParseName "/records/b" = none ∧
    ParseName "records/b" = none ∧
    ParseName "a/tacocat/b/records/c" = none ∧
    ParseName "a/results/b" = none ∧
    ParseName "a/b/results/c" = none ∧
    ParseName "a/results/b/records/c/d" = none ∧
    ParseName "results/results/records/records/records"
      = some ("results", "records", "records") := by
  refine ⟨fun s p r n => ?_, by decide, by decide, by decide, by decide, by decide,
    by decide, by decide, by decide⟩
  simpa [formatFullName] using parseName_eq_some_iff s p r n

/-- C5: with no back-reference identifier on the converted payload, one
`Reconcile` pass issues exactly one `CreateResult` call whose new Result
contains exactly one Execution holding this payload, then applies exactly one
metadata patch adding the created Result identifier to the source object; if
the patch application fails, `Reconcile` returns an error even though the
Result was created. -/
theorem create_branch_calls (w : World) (key ns0 n0 : String) (tr : TaskRun)
    (trProto : TaskRunProto) (created : Result)
    (hk : splitMetaNamespaceKey key = some (ns0, n0))
    (hf : w.fetchTaskRun = FetchOutcome.ok tr)
    (hc : w.convertProto = some trProto)
    (ha : trProto.metadata.annots.lookup resultIDKey = none)
    (hcr : w.createResult = some created)
    (hok : w.addResultIDOk = true) :
    (reconcile w key).remoteCalls
        = [RemoteCall.createResult { name := "", executions := [Execution.taskRun trProto] }] ∧
    (reconcile w key).patches
        = [(tr.ns, tr.name, { key := resultIDKey, value := created.name })] ∧
    (w.patchOk = false → (reconcile w key).outcome = Outcome.err ReconcileError.patchApplyErr) := by
  rw [reconcile_create_branch w key ns0 n0 tr trProto created hk hf hc ha hcr hok]
  refine ⟨rfl, rfl, fun hp => ?_⟩
  simp [hp]

/-- C5 witness: the CREATE branch at a concrete world whose patch application
fails. -/
theorem create_branch_calls_witness :
    (reconcile wCreate "default/tr1").remoteCalls
        = [RemoteCall.createResult { name := "", executions := [Execution.taskRun protoNoRef] }] ∧
    (reconcile wCreate "default/tr1").patches
        = [("default", "tr1", { key := resultIDKey, value := "results/new1" })] ∧
    (wCreate.patchOk = false →
      (reconcile wCreate "default/tr1").outcome = Outcome.err ReconcileError.patchApplyErr) :=
  create_branch_calls wCreate "default/tr1" "default" "tr1" tr0 protoNoRef
    { name := "results/new1", executions := [] }
    (by decide) (by decide) (by decide) (by decide) (by decide) (by decide)

/-- C6: in the UPDATE branch, when the fetched Result holds exactly one
Execution matching the source object's identity, that slot is overwritten in
its existing position with the new payload, the Execution count is unchanged,
and the whole Result is persisted through a single `UpdateResult` call. -/
theorem update_branch_replace_in_place (w : World) (key ns0 n0 : String)
    (tr : TaskRun) (trProto : TaskRunProto) (rid : String) (result : Result)
    (pre : List Execution) (e : Execution) (post : List Execution)
    (hk : splitMetaNamespaceKey key = some (ns0, n0))
    (hf : w.fetchTaskRun = FetchOutcome.ok tr)
    (hc : w.convertProto = some trProto)
    (ha : trProto.metadata.annots.lookup resultIDKey = some rid)
    (hg : w.getResult = some result)
    (hr : result.executions = pre ++ e :: post)
    (hm : matchesTaskRun tr e = true)
    (hpre : ∀ x ∈ pre, matchesTaskRun tr x = false)
    (hpost : ∀ x ∈ post, matchesTaskRun tr x = false) :
    (reconcile w key).remoteCalls
        = [RemoteCall.getResult rid,
           RemoteCall.updateResult rid
             { result with executions := pre ++ Execution.taskRun trProto :: post }] ∧
    (pre ++ Execution.taskRun trProto :: post).length = result.executions.length := by
  rw [reconcile_update_branch w key ns0 n0 tr trProto rid result hk hf hc ha hg]
  constructor
  · rw [hr, updateExecutions_replace tr trProto pre e post hm hpre hpost]
  · rw [hr]
    simp

/-- C6 witness: the replace-in-place scenario at a concrete Result with one
matching Execution. -/
theorem update_branch_replace_in_place_witness :
    (reconcile wReplace "default/tr1").remoteCalls
        = [RemoteCall.getResult "results/res1",
           RemoteCall.updateResult "results/res1"
             { name := "results/res1",
               executions := [otherExec, Execution.taskRun protoWithRef] }] ∧
    ([otherExec] ++ Execution.taskRun protoWithRef :: ([] : List Execution)).length
        = resReplace.executions.length :=
  update_branch_replace_in_place wReplace "default/tr1" "default" "tr1" tr0 protoWithRef
    "results/res1" resReplace [otherExec] matchingExec []
    (by decide) (by decide) (by decide) (by decide) (by decide) (by decide) (by decide)
    (by decide) (by decide)

/-- C7: in the UPDATE branch, when no Execution of the fetched Result matches
the source object's identity, exactly one new Execution for this payload is
appended at the end of the list, so the Execution count increases by one. -/
theorem update_branch_append (w : World) (key ns0 n0 : String)
    (tr : TaskRun) (trProto : TaskRunProto) (rid : String) (result : Result)
    (hk : splitMetaNamespaceKey key = some (ns0, n0))
    (hf : w.fetchTaskRun = FetchOutcome.ok tr)
    (hc : w.convertProto = some trProto)
    (ha : trProto.metadata.annots.lookup resultIDKey = some rid)
    (hg : w.getResult = some result)
    (hnone : ∀ x ∈ result.executions, matchesTaskRun tr x = false) :
    (reconcile w key).remoteCalls
        = [RemoteCall.getResult rid,
           RemoteCall.updateResult rid
             { result with
                executions := result.executions ++ [Execution.taskRun trProto] }] ∧
    (result.executions ++ [Execution.taskRun trProto]).length
        = result.executions.length + 1 := by
  rw [reconcile_update_branch w key ns0 n0 tr trProto rid result hk hf hc ha hg]
  constructor
  · rw [updateExecutions_of_none tr trProto result.executions hnone]
  · simp

/-- C7 witness: the accretion scenario at a concrete Result with no matching
Execution. -/
theorem update_branch_append_witness :
    (reconcile wAppend "default/tr1").remoteCalls
        = [RemoteCall.getResult "results/res1",
           RemoteCall.updateResult "results/res1"
             { name := "results/res1",
               executions := [otherExec, Execution.unset, Execution.taskRun protoWithRef] }] ∧
    (resAppend.executions ++ [Execution.taskRun protoWithRef]).length
        = resAppend.executions.length + 1 :=
  update_branch_append wAppend "default/tr1" "default" "tr1" tr0 protoWithRef
    "results/res1" resAppend
    (by decide) (by decide) (by decide) (by decide) (by decide) (by decide)

/-- C8: when the source object is absent (NotFound) at fetch time,
`Reconcile` terminates successfully with zero remote results-service calls
(and zero patches). -/
theorem notFound_is_success_no_calls (w : World) (key ns0 n0 : String)
    (hk : splitMetaNamespaceKey key = some (ns0, n0))
    (hf : w.fetchTaskRun = FetchOutcome.notFound) :
    reconcile w key = { outcome := Outcome.ok, remoteCalls := [], patches := [] } := by
  simp only [reconcile, hk, hf]

/-- C8 witness: the tombstone scenario at a concrete world. -/
theorem notFound_is_success_no_calls_witness :
    reconcile wTombstone "default/tr1"
      = { outcome := Outcome.ok, remoteCalls := [], patches := [] } :=
  notFound_is_success_no_calls wTombstone "default/tr1" "default" "tr1"
    (by decide) (by decide)

/-- C10: in the UPDATE branch, the scan has no early exit: when some
Execution matches, the persisted list keeps its length, and slot by slot
every matching Execution (all of them, not only the first) is overwritten
with the new payload while every non-matching slot — including non-TaskRun
variants — is left unchanged in its position. -/
theorem update_branch_rewrites_all_matches (w : World) (key ns0 n0 : String)
    (tr : TaskRun) (trProto : TaskRunProto) (rid : String) (result : Result)
    (hk : splitMetaNamespaceKey key = some (ns0, n0))
    (hf : w.fetchTaskRun = FetchOutcome.ok tr)
    (hc : w.convertProto = some trProto)
    (ha : trProto.metadata.annots.lookup resultIDKey = some rid)
    (hg : w.getResult = some result)
    (hex : result.executions.any (matchesTaskRun tr) = true) :
    (reconcile w key).remoteCalls
        = [RemoteCall.getResult rid,
           RemoteCall.updateResult rid
             { result with
                executions := updateExecutions tr trProto result.executions }] ∧
    (updateExecutions tr trProto result.executions).length = result.executions.length ∧
    (∀ i : Nat, (updateExecutions tr trProto result.executions).get? i
        = (result.executions.get? i).map
            fun e => if matchesTaskRun tr e then Execution.taskRun trProto else e) := by
  rw [reconcile_update_branch w key ns0 n0 tr trProto rid result hk hf hc ha hg]
  refine ⟨rfl, ?_, fun i => ?_⟩
  · rw [updateExecutions_of_any tr trProto result.executions hex]
    simp
  · rw [updateExecutions_of_any tr trProto result.executions hex, List.get?_map]

/-- C10 witness: a Result holding two matching Executions around a non-TaskRun
slot; both matches are overwritten and the unset slot is untouched. -/
theorem update_branch_rewrites_all_matches_witness :
    (reconcile wMulti "default/tr1").remoteCalls
        = [RemoteCall.getResult "results/res1",
           RemoteCall.updateResult "results/res1"
             { name := "results/res1",
               executions := updateExecutions tr0 protoWithRef resMulti.executions }] ∧
    (updateExecutions tr0 protoWithRef resMulti.executions).length
        = resMulti.executions.length ∧
    (∀ i : Nat, (updateExecutions tr0 protoWithRef resMulti.executions).get? i
        = (resMulti.executions.get? i).map
            fun e => if matchesTaskRun tr0 e then Execution.taskRun protoWithRef else e) :=
  update_branch_rewrites_all_matches wMulti "default/tr1" "default" "tr1" tr0 protoWithRef
    "results/res1" resMulti
    (by decide) (by decide) (by decide) (by decide) (by decide) (by decide)

/-- C9: `FormatName` is the plain two-level composition
`parent + "/records/" + record`, with no validation; in particular
`FormatName "a" "b" = "a/records/b"`. -/
theorem formatName_composition :
    (∀ parent record : String, FormatName parent record = parent ++ "/records/" ++ record) ∧
    FormatName "a" "b" = "a/records/b" :=
  ⟨fun _ _ => rfl, rfl⟩

end TektonResults
